import Mathlib

set_option maxRecDepth 100000

set_option maxHeartbeats 1000000

/-!
Verification development for the `tbp_apis` repository (`src/segmenting.js`).

The source file contains two Express servers:
* a background-removal server (`POST /api/remove-background`, `POST /api/render`),
* an enhanced HTML-render server (`POST /render`) with helper functions
  `inlineGoogleFonts`, `processHtmlForRendering` and `captureHtml`.

HTML strings are embedded as `List Char`.  The JavaScript regular expressions
used by the source are deterministic on their patterns (the analysis is given
at each definition), so they are embedded as executable scanners over
`List Char`.  External effects (the filesystem, the `removeBackground`
library, Puppeteer, `fetch`) are embedded as explicit oracles: a record of
outcomes for each suspension point of a handler, quantified over in the
theorems.
-/

/-! ### Character-list machinery

`startsWithBy eq pat s` : `pat` matches a prefix of `s` under the character
comparison `eq`; `containsBy` is the corresponding search anywhere in `s`.
JavaScript regexes with the `i` flag compare case-insensitively (`ciEqC`);
`String.prototype.includes` / plain string search compare exactly (`csEqC`).
-/

def ciEqC (a b : Char) : Bool := a.toLower == b.toLower

def csEqC (a b : Char) : Bool := a == b

def startsWithBy (eq : Char → Char → Bool) : List Char → List Char → Bool
  | [], _ => true
  | _ :: _, [] => false
  | p :: ps, c :: cs => eq p c && startsWithBy eq ps cs

def containsBy (eq : Char → Char → Bool) (pat : List Char) : List Char → Bool
  | [] => startsWithBy eq pat []
  | c :: cs => startsWithBy eq pat (c :: cs) || containsBy eq pat cs

def startsWithCI (pat s : List Char) : Bool := startsWithBy ciEqC pat s

def containsCI (pat s : List Char) : Bool := containsBy ciEqC pat s

def startsWithCS (pat s : List Char) : Bool := startsWithBy csEqC pat s

def containsCS (pat s : List Char) : Bool := containsBy csEqC pat s

/-- JS `String.prototype.replace(pat, rep)` with a *string* pattern: replaces
only the first occurrence (the replacement strings used by the source contain
no `$` so no substitution patterns arise).  An empty pattern inserts `rep` at
the start, as in JS. -/
def replaceFirst (pat rep : List Char) : List Char → List Char
  | [] => if startsWithCS pat [] then rep else []
  | c :: cs =>
    if startsWithCS pat (c :: cs) then rep ++ (c :: cs).drop pat.length
    else c :: replaceFirst pat rep cs

/-! ### The script-stripping regex

Source line 325: `.replace(/<script\b[^<]*(?:(?!<\/script>)<[^<]*)*<\/script>/gi, '')`.

Deterministic reading of the pattern: a match starts at a case-insensitive
occurrence of `<script` whose following character is not a word character
(`\b`); the body `[^<]*(?:(?!<\/script>)<[^<]*)*` matches any character
sequence whose embedded `<` never starts `</script>`, so the match extends
exactly to the end of the *first* case-insensitive `</script>` after the
opening (position ≥ 7); if no `</script>` follows there is no match.  The
global flag removes matches left to right, resuming after each match. -/

def isWordChar (c : Char) : Bool := c.isAlphanum || c == '_'

def scriptPatD : List Char := "<script".data

def scriptCloseD : List Char := "</script>".data

def iframePatD : List Char := "<iframe".data

def iframeCloseD : List Char := "</iframe>".data

/-- Index of the first case-insensitive occurrence of `pat` in `s`. -/
def findCI (pat : List Char) : List Char → Option Nat
  | [] => if startsWithCI pat [] then some 0 else none
  | c :: cs =>
    if startsWithCI pat (c :: cs) then some 0
    else (findCI pat cs).map (· + 1)

/-- Length of the script-regex match starting at the head of `s`, if any. -/
def scriptMatchLen (s : List Char) : Option Nat :=
  if startsWithCI scriptPatD s &&
      (match s.drop 7 with
       | [] => true
       | c :: _ => !isWordChar c) then
    (findCI scriptCloseD (s.drop 7)).map (fun k => 7 + k + 9)
  else none

/-! ### The iframe-stripping regex

Source line 326: `.replace(/<iframe[^>]*>.*?<\/iframe>/gi, '')`.

Deterministic reading: `<iframe` (case-insensitive, no word boundary), then
`[^>]*` up to the first `>`, then the lazy `.*?` — the shortest run of
non-line-terminator characters (JS `.` excludes `\n`, `\r`, U+2028, U+2029)
before the first case-insensitive `</iframe>`; if a line terminator intervenes
first, there is no match at this start position. -/

def isLineTerm (c : Char) : Bool :=
  c == '\n' || c == '\r' || c.toNat == 0x2028 || c.toNat == 0x2029

def findGt : List Char → Option Nat
  | [] => none
  | c :: cs => if c == '>' then some 0 else (findGt cs).map (· + 1)

def findIframeClose : List Char → Option Nat
  | [] => none
  | c :: cs =>
    if startsWithCI iframeCloseD (c :: cs) then some 0
    else if isLineTerm c then none
    else (findIframeClose cs).map (· + 1)

/-- Length of the iframe-regex match starting at the head of `s`, if any. -/
def iframeMatchLen (s : List Char) : Option Nat :=
  if startsWithCI iframePatD s then
    match findGt (s.drop 7) with
    | none => none
    | some g =>
      match findIframeClose (s.drop (7 + g + 1)) with
      | none => none
      | some q => some (7 + g + 1 + q + 9)
  else none

/-- One left-to-right global-replace pass deleting every match of the regex
described by `matchLen`; the fuel argument (instantiated with the string
length, which bounds the number of steps) keeps the recursion structural so
that the kernel can evaluate it. -/
def stripGo (matchLen : List Char → Option Nat) : Nat → List Char → List Char
  | 0, s => s
  | Nat.succ fuel, s =>
    match s with
    | [] => []
    | c :: cs =>
      match matchLen (c :: cs) with
      | some len => stripGo matchLen fuel ((c :: cs).drop len)
      | none => c :: stripGo matchLen fuel cs

def stripScripts (s : List Char) : List Char := stripGo scriptMatchLen s.length s

def stripIframes (s : List Char) : List Char := stripGo iframeMatchLen s.length s

/-- `anyMatchBy matchLen s` : some suffix of `s` starts a match, i.e. the
string still contains a construct matched by the regex. -/
def anyMatchBy (matchLen : List Char → Option Nat) : List Char → Bool
  | [] => (matchLen []).isSome
  | c :: cs => (matchLen (c :: cs)).isSome || anyMatchBy matchLen cs

def anyScriptMatch (s : List Char) : Bool := anyMatchBy scriptMatchLen s

def anyIframeMatch (s : List Char) : Bool := anyMatchBy iframeMatchLen s

/-- Decidable side conditions under which inserting the concrete block `L`
into a string free of `pat` cannot create a case-insensitive occurrence of
`pat`: `L` itself is `pat`-free, and no occurrence can straddle either
boundary of `L` (no proper suffix of `L` case-insensitively begins `pat`,
and no proper tail of `pat` case-insensitively begins `L`). -/
def insertSafe (pat L : List Char) : Prop :=
  containsCI pat L = false ∧ pat.length ≤ L.length ∧
    (∀ k, k < pat.length → 0 < k → startsWithCI (L.drop (L.length - k)) pat = false) ∧
    (∀ k, k < pat.length → 0 < k → startsWithCI (pat.drop k) L = false)

instance (pat L : List Char) : Decidable (insertSafe pat L) := by
  unfold insertSafe; infer_instance

/-! ### The preconnect presence-check regexes

Source lines 312–313:
`/<link[^>]+rel=["']preconnect["'][^>]+href=["']https:\/\/fonts\.googleapis\.com["'][^>]*>/i`
(and the same with `fonts.gstatic.com`).  A match is an existential
decomposition `<link`, one-or-more non-`>` characters, `rel=`, a quote,
`preconnect`, a quote, one-or-more non-`>`, `href=`, a quote, the host URL,
a quote, zero-or-more non-`>`, `>`; the searches below enumerate exactly
these decompositions (backtracking = existence of a split). -/

def isQuoteC (c : Char) : Bool := c == '"' || c.toNat == 39

/-- Case-insensitively consume the literal `lit` from the front of `s`. -/
def parseLitCI : List Char → List Char → Option (List Char)
  | [], s => some s
  | _ :: _, [] => none
  | p :: ps, c :: cs => if ciEqC p c then parseLitCI ps cs else none

def parseQuote : List Char → Option (List Char)
  | [] => none
  | c :: cs => if isQuoteC c then some cs else none

/-- Consume `rel=["']preconnect["']`. -/
def relTail (s : List Char) : Option (List Char) :=
  (parseLitCI ("rel=".data) s).bind fun t =>
    (parseQuote t).bind fun u =>
      (parseLitCI ("preconnect".data) u).bind parseQuote

/-- Consume `href=["']HOST["']`. -/
def hrefTail (host : List Char) (s : List Char) : Option (List Char) :=
  (parseLitCI ("href=".data) s).bind fun t =>
    (parseQuote t).bind fun u =>
      (parseLitCI host u).bind parseQuote

/-- `[^>]+` then `p`: some split with a nonempty `>`-free prefix satisfies `p`. -/
def searchAfterNoGt (p : List Char → Bool) : List Char → Bool
  | [] => false
  | c :: cs => c != '>' && (p cs || searchAfterNoGt p cs)

/-- `[^>]*` then `p`. -/
def searchFromNoGt (p : List Char → Bool) (s : List Char) : Bool :=
  p s || searchAfterNoGt p s

def gtHead : List Char → Bool
  | [] => false
  | c :: _ => c == '>'

/-- The presence-check regex matches starting at the head of `s`. -/
def matchPreAt (host : List Char) (s : List Char) : Bool :=
  match parseLitCI ("<link".data) s with
  | none => false
  | some t =>
    searchAfterNoGt (fun u =>
      match relTail u with
      | none => false
      | some v =>
        searchAfterNoGt (fun w =>
          match hrefTail host w with
          | none => false
          | some x => searchFromNoGt gtHead x) v) t

/-- The presence-check regex matches somewhere in `s` (regex search). -/
def hasPreFor (host : List Char) : List Char → Bool
  | [] => matchPreAt host []
  | c :: cs => matchPreAt host (c :: cs) || hasPreFor host cs

def googHost : List Char := "https://fonts.googleapis.com".data

def gstaticHost : List Char := "https://fonts.gstatic.com".data

/-- Line 312: `hasPreconnectGoogapis`. -/
def hasPreG (s : List Char) : Bool := hasPreFor googHost s

/-- Line 313: `hasPreconnectGstatic`. -/
def hasPreGs (s : List Char) : Bool := hasPreFor gstaticHost s

/-- The literal link tag injected for fonts.googleapis.com (line 314). -/
def googLinkD : List Char :=
  "<link rel=\"preconnect\" href=\"https://fonts.googleapis.com\">".data

/-- The literal link tag injected for fonts.gstatic.com (line 314). -/
def gstaticLinkD : List Char :=
  "<link rel=\"preconnect\" href=\"https://fonts.gstatic.com\" crossorigin>".data

def headCloseD : List Char := "</head>".data

/-- Lines 311–321 of the source: build the (possibly empty) preconnect link
string and insert it before the first `</head>` when one is present
(`includes`/`replace` are case-sensitive), otherwise prepend it; skip
entirely when both checks already match (`if (preconnectLinks)` on the
empty string is falsy). -/
def injectPreconnects (h : List Char) : List Char :=
  let links :=
    (if hasPreG h then [] else googLinkD) ++ (if hasPreGs h then [] else gstaticLinkD)
  if links.isEmpty then h
  else if containsCS headCloseD h then
    replaceFirst headCloseD (links ++ headCloseD) h
  else links ++ h

/-- Source lines 307–329: `processHtmlForRendering` — inject the preconnect
hints, then remove script matches, then iframe matches. -/
def processHtmlForRendering (h : List Char) : List Char :=
  stripIframes (stripScripts (injectPreconnects h))

/-! ### `inlineGoogleFonts` (source lines 275–304)

The link extraction regex (lines 277–282) collects the `<link ... href="https://fonts.googleapis.com/...">`
tags of the input; the collected tag list is a parameter `links` of the
embedding (each element standing for one `match[0]` of the extraction loop).
The network `fetch` together with `cssRes.text()` is the oracle
`fetchO : List Char → Except Unit FetchResp`: an `Except.error` is a thrown
rejection, an `Except.ok` carries the response `ok` flag and the CSS text. -/

structure FetchResp where
  ok : Bool
  body : List Char

/-- Line 286: `linkTag.match(/href=["']([^"']+)["']/i)` at one position:
`href=` (case-insensitive), a quote, a maximal nonempty run free of both
quote characters, then a quote. -/
def hrefAttempt (s : List Char) : Option (List Char) :=
  match parseLitCI ("href=".data) s with
  | none => none
  | some t =>
    match t with
    | [] => none
    | q :: rest =>
      if isQuoteC q then
        let cap := rest.takeWhile (fun c => !isQuoteC c)
        if cap.isEmpty then none
        else
          match rest.drop cap.length with
          | [] => none
          | q2 :: _ => if isQuoteC q2 then some cap else none
      else none

/-- First match of the href-extraction regex anywhere in the link tag. -/
def hrefOf : List Char → Option (List Char)
  | [] => none
  | c :: cs =>
    match hrefAttempt (c :: cs) with
    | some h => some h
    | none => hrefOf cs

def gtParen : List Char → Bool
  | [] => false
  | c :: _ => c == ')'

/-- Line 294: `css.replace(/url\((\/\/fonts\.gstatic\.com[^\)]+)\)/g, 'url(https:$1)')`:
each `url(//fonts.gstatic.com…)` group becomes `url(https://fonts.gstatic.com…)`.
Case-sensitive (no `i` flag); fuel keeps the recursion structural. -/
def replGst1Go : Nat → List Char → List Char
  | 0, s => s
  | Nat.succ fuel, s =>
    match s with
    | [] => []
    | c :: cs =>
      let pre := "url(//fonts.gstatic.com".data
      if startsWithCS pre (c :: cs) then
        let rest := (c :: cs).drop pre.length
        let run := rest.takeWhile (fun x => x != ')')
        if !run.isEmpty && gtParen (rest.drop run.length) then
          ("url(https://fonts.gstatic.com".data ++ run ++ [')']) ++
            replGst1Go fuel (rest.drop (run.length + 1))
        else c :: replGst1Go fuel cs
      else c :: replGst1Go fuel cs

/-- Line 295: `css.replace(/url\((https:\/\/fonts\.gstatic\.com[^\)]+)\)/g, 'url($1)')`
(the replacement reproduces the match verbatim). -/
def replGst2Go : Nat → List Char → List Char
  | 0, s => s
  | Nat.succ fuel, s =>
    match s with
    | [] => []
    | c :: cs =>
      let pre := "url(https://fonts.gstatic.com".data
      if startsWithCS pre (c :: cs) then
        let rest := (c :: cs).drop pre.length
        let run := rest.takeWhile (fun x => x != ')')
        if !run.isEmpty && gtParen (rest.drop run.length) then
          ("url(https://fonts.gstatic.com".data ++ run ++ [')']) ++
            replGst2Go fuel (rest.drop (run.length + 1))
        else c :: replGst2Go fuel cs
      else c :: replGst2Go fuel cs

/-- Lines 294–295: both gstatic URL rewrites. -/
def fixCss (css : List Char) : List Char :=
  let s1 := replGst1Go css.length css
  replGst2Go s1.length s1

/-- Line 296: the inline style tag wrapping the fetched CSS. -/
def styleTagFor (css : List Char) : List Char :=
  "<style data-inlined-google-fonts>".data ++ css ++ "</style>".data

/-- One iteration of the link loop (lines 286–297) *before* the inner catch:
skip on a missing href (`continue`), propagate a fetch rejection, skip on a
non-ok status (`continue`), otherwise replace the first occurrence of the
link tag by the style tag. -/
def inlineStepBody (fetchO : List Char → Except Unit FetchResp)
    (acc link : List Char) : Except Unit (List Char) :=
  match hrefOf link with
  | none => Except.ok acc
  | some href =>
    match fetchO href with
    | Except.error e => Except.error e
    | Except.ok resp =>
      if !resp.ok then Except.ok acc
      else Except.ok (replaceFirst link (styleTagFor (fixCss resp.body)) acc)

/-- One iteration with the inner `catch {}` (line 298) applied: a thrown
fetch leaves the accumulator unchanged. -/
def inlineStep (fetchO : List Char → Except Unit FetchResp)
    (acc link : List Char) : List Char :=
  match inlineStepBody fetchO acc link with
  | Except.ok s => s
  | Except.error _ => acc

/-- The body of the outer `try` (lines 276–300): the loop over the collected
link tags, each iteration guarded by the inner catch. -/
def inlineGoogleFontsAux (fetchO : List Char → Except Unit FetchResp)
    (links : List (List Char)) (html : List Char) : Except Unit (List Char) :=
  links.foldlM (fun acc link =>
    match inlineStepBody fetchO acc link with
    | Except.ok s => Except.ok s
    | Except.error _ => Except.ok acc) html

/-- `inlineGoogleFonts` with the outer catch (lines 301–303): on a thrown
error the original html is returned. -/
def inlineGoogleFonts (fetchO : List Char → Except Unit FetchResp)
    (links : List (List Char)) (html : List Char) : List Char :=
  match inlineGoogleFontsAux fetchO links html with
  | Except.ok s => s
  | Except.error _ => html

/-! ### JSON values

The `html`, `width`, `height`, `deviceScaleFactor` fields of a render
request body.  `truthy` is JavaScript truthiness (`!html` rejects exactly
the falsy values); dimensions are embedded as `Option Int` (`none` =
absent/undefined, triggering the destructuring default; `parseInt` on an
integral number is the identity). -/

inductive JSVal where
  | str (s : String)
  | num (n : Int)
  | boolean (b : Bool)
  | null
  | undef
  | obj
  | arr

def JSVal.truthy : JSVal → Bool
  | .str s => s != ""
  | .num n => n != 0
  | .boolean b => b
  | .null => false
  | .undef => false
  | .obj => true
  | .arr => true

def JSVal.isStr : JSVal → Bool
  | .str _ => true
  | _ => false

/-! ### Background-removal endpoint (source lines 18–132)

Oracle fields: `readOk` = `fs.readFile` resolves; `bgOk` = `removeBackground`
plus `resultBlob.arrayBuffer()` resolve, producing the bytes `bgBuf`;
`unlinkOk` = `fs.unlink` on the temp path resolves; `dev` =
`process.env.NODE_ENV === 'development'`; `ptime` = the computed
processing-time string; `errMsg` = the `message` of whichever error is
thrown on a failing path. -/

structure BgFile where
  mimetype : String
  size : Nat

/-- Line 29. -/
def allowedMimes : List String :=
  ["image/jpeg", "image/png", "image/jpg", "image/webp"]

/-- Lines 28–35: the multer `fileFilter` accepts exactly the allowed MIME types. -/
def fileFilterAccepts (f : BgFile) : Bool := allowedMimes.contains f.mimetype

/-- Line 41: `fileSize: 10 * 1024 * 1024`. -/
def bgSizeLimit : Nat := 10 * 1024 * 1024

structure BgOracle where
  readOk : Bool
  bgOk : Bool
  bgBuf : List Nat
  unlinkOk : Bool
  dev : Bool
  ptime : String
  errMsg : String

structure BgResult where
  status : Nat
  contentType : Option String := none
  xProcessingTime : Option String := none
  body : List Nat := []
  errorMsg : Option String := none
  details : Option String := none
  reached : Bool := false
  invokedBg : Bool := false
  tempExists : Bool := false

/-- Line 128. -/
def bgGenericMsg : String :=
  "Background removal failed. Please try with a different image."

/-- Lines 60–132, entered with `req.file` set (the multer disk storage has
already saved the temp file, so `tempExists` starts true and `tempPath` is
assigned on line 68).  Every failing path runs the catch block (lines
115–131): one unlink attempt (a second one when the success-path unlink on
line 108 already failed), then the generic 500 with `details` only in
development. -/
def bgHandlerBody (o : BgOracle) : BgResult :=
  if !o.readOk then
    { status := 500, errorMsg := some bgGenericMsg,
      details := if o.dev then some o.errMsg else none,
      reached := true, tempExists := !o.unlinkOk }
  else if !o.bgOk then
    { status := 500, errorMsg := some bgGenericMsg,
      details := if o.dev then some o.errMsg else none,
      reached := true, invokedBg := true, tempExists := !o.unlinkOk }
  else if !o.unlinkOk then
    { status := 500, errorMsg := some bgGenericMsg,
      details := if o.dev then some o.errMsg else none,
      reached := true, invokedBg := true, tempExists := true }
  else
    { status := 200, contentType := some "image/png",
      xProcessingTime := some o.ptime, body := o.bgBuf,
      reached := true, invokedBg := true, tempExists := false }

/-- `POST /api/remove-background` including the multer middleware.  A file
rejected by `fileFilter` (lines 28–35) or exceeding the `fileSize` limit
(line 41) makes multer abort the request with an error; the app registers no
error-handling middleware, so the error reaches Express's default error
handler, which — the error carrying no status code — responds with status
500 and never runs the route handler.  With no file at all, multer passes
through and the handler answers 400 (lines 64–66). -/
def removeBackgroundRoute (o : BgOracle) (file : Option BgFile) : BgResult :=
  match file with
  | none => { status := 400, errorMsg := some "No image provided" }
  | some f =>
    if !fileFilterAccepts f then { status := 500 }
    else if bgSizeLimit < f.size then { status := 500 }
    else bgHandlerBody o

/-! ### Simple render endpoint `POST /api/render` (source lines 137–185)

Oracle fields are the suspension points in order: `puppeteer.launch`,
`browser.newPage`, `page.setViewport`, `page.setContent`,
`page.screenshot`.  `browser.close()` (lines 166 and 177) is embedded as
always succeeding; `launched` records that a browser process was started,
`openAtEnd` whether it is still open when the handler returns, `viewport`
the dimensions actually applied by `setViewport`. -/

structure SimpOracle where
  launchOk : Bool
  newPageOk : Bool
  viewportOk : Bool
  contentOk : Bool
  shotOk : Bool
  shotBuf : List Nat
  ptime : String
  errMsg : String

structure SimpResult where
  status : Nat
  contentType : Option String := none
  xProcessingTime : Option String := none
  body : List Nat := []
  errorMsg : Option String := none
  details : Option String := none
  launched : Bool := false
  openAtEnd : Bool := false
  viewport : Option (Int × Int) := none

/-- Lines 137–185.  `if (!html)` rejects exactly falsy values (line 143);
the destructuring defaults (line 141) are 1200 × 630; every error after a
successful launch closes the browser in the catch block (lines 176–178),
and the simple variant always includes `error.message` in `details`
(line 182). -/
def apiRenderSimple (o : SimpOracle) (html : JSVal)
    (width height : Option Int) : SimpResult :=
  let w := width.getD 1200
  let h := height.getD 630
  if !html.truthy then
    { status := 400, errorMsg := some "HTML content is required" }
  else if !o.launchOk then
    { status := 500, errorMsg := some "Rendering failed", details := some o.errMsg }
  else if !o.newPageOk then
    { status := 500, errorMsg := some "Rendering failed", details := some o.errMsg,
      launched := true }
  else if !o.viewportOk then
    { status := 500, errorMsg := some "Rendering failed", details := some o.errMsg,
      launched := true }
  else if !o.contentOk then
    { status := 500, errorMsg := some "Rendering failed", details := some o.errMsg,
      launched := true, viewport := some (w, h) }
  else if !o.shotOk then
    { status := 500, errorMsg := some "Rendering failed", details := some o.errMsg,
      launched := true, viewport := some (w, h) }
  else
    { status := 200, contentType := some "image/png",
      xProcessingTime := some o.ptime, body := o.shotBuf,
      launched := true, viewport := some (w, h) }

/-! ### Enhanced capture pipeline (source lines 332–487) -/

structure CapOracle where
  fetchO : List Char → Except Unit FetchResp
  linksOf : List Char → List (List Char)
  launchOk : Bool
  newPageOk : Bool
  uaOk : Bool
  bypassOk : Bool
  viewportOk : Bool
  evalNewDocOk : Bool
  contentOk : Bool
  evalOk : Bool
  shotOk : Bool
  pageCloseOk : Bool
  shotBuf : List Nat
  dev : Bool
  errMsg : String
  stackMsg : String

structure CapResult where
  result : Except Unit (List Nat)
  launched : Bool := false
  openAtEnd : Bool := false
  dims : Option (Int × Int × Int) := none
  processed : List Char := []

/-- Lines 332–450: `captureHtml`.  Parameter defaults (line 332) are
1200 × 800, scale 2.  The html is preprocessed (lines 340–341), the browser
launched with those dimensions, and the chain of page operations runs in
order (`newPage`, `setUserAgent`, `setBypassCSP`, `setViewport`,
`evaluateOnNewDocument`, `setContent`, the stabilization `evaluate`,
`screenshot`, `page.close`); any rejection after the launch hits the catch
(lines 445–449) which closes the browser and rethrows.  `linksOf` stands
for the extraction loop of `inlineGoogleFonts` applied to the processed
html. -/
def captureHtml (o : CapOracle) (html : List Char)
    (width height dsf : Option Int) : CapResult :=
  let w := width.getD 1200
  let h := height.getD 800
  let d := dsf.getD 2
  let clean0 := processHtmlForRendering html
  let clean := inlineGoogleFonts o.fetchO (o.linksOf clean0) clean0
  if !o.launchOk then
    { result := Except.error (), launched := false, openAtEnd := false,
      dims := some (w, h, d), processed := clean }
  else if !o.newPageOk then
    { result := Except.error (), launched := true, openAtEnd := false,
      dims := some (w, h, d), processed := clean }
  else if !o.uaOk then
    { result := Except.error (), launched := true, openAtEnd := false,
      dims := some (w, h, d), processed := clean }
  else if !o.bypassOk then
    { result := Except.error (), launched := true, openAtEnd := false,
      dims := some (w, h, d), processed := clean }
  else if !o.viewportOk then
    { result := Except.error (), launched := true, openAtEnd := false,
      dims := some (w, h, d), processed := clean }
  else if !o.evalNewDocOk then
    { result := Except.error (), launched := true, openAtEnd := false,
      dims := some (w, h, d), processed := clean }
  else if !o.contentOk then
    { result := Except.error (), launched := true, openAtEnd := false,
      dims := some (w, h, d), processed := clean }
  else if !o.evalOk then
    { result := Except.error (), launched := true, openAtEnd := false,
      dims := some (w, h, d), processed := clean }
  else if !o.shotOk then
    { result := Except.error (), launched := true, openAtEnd := false,
      dims := some (w, h, d), processed := clean }
  else if !o.pageCloseOk then
    { result := Except.error (), launched := true, openAtEnd := false,
      dims := some (w, h, d), processed := clean }
  else
    { result := Except.ok o.shotBuf, launched := true, openAtEnd := false,
      dims := some (w, h, d), processed := clean }

structure EnhResult where
  status : Nat
  contentType : Option String := none
  cacheControl : Option String := none
  contentLength : Option String := none
  xSuccess : Option String := none
  body : List Nat := []
  errorMsg : Option String := none
  details : Option String := none
  stack : Option String := none
  launched : Bool := false
  openAtEnd : Bool := false
  dims : Option (Int × Int × Int) := none

/-- Lines 453–487: `POST /render`.  `!html || typeof html !== 'string'`
rejects every non-string and the empty string with 400 before any capture
(lines 459–461); destructuring defaults (line 457) are 1200 × 800 × 2; on
success the headers of lines 470–475 are set, with `Content-Length` the
decimal string of the buffer length; on a capture error the 500 body carries
`error.message` and, in development only, the stack. -/
def renderEnhanced (o : CapOracle) (html : JSVal)
    (width height dsf : Option Int) : EnhResult :=
  match html with
  | JSVal.str s =>
    if s == "" then { status := 400, errorMsg := some "Invalid html payload" }
    else
      let c := captureHtml o s.data width height dsf
      match c.result with
      | Except.ok buf =>
        { status := 200, contentType := some "image/png",
          cacheControl := some "no-cache, no-store, must-revalidate",
          contentLength := some (Nat.repr buf.length), xSuccess := some "true",
          body := buf, launched := c.launched, openAtEnd := c.openAtEnd,
          dims := c.dims }
      | Except.error _ =>
        { status := 500, errorMsg := some "Capture failed", details := some o.errMsg,
          stack := if o.dev then some o.stackMsg else none,
          launched := c.launched, openAtEnd := c.openAtEnd, dims := c.dims }
  | _ => { status := 400, errorMsg := some "Invalid html payload" }

/-! ### Concrete sample data used by witnesses and counterexamples -/

def bgFilePng : BgFile := { mimetype := "image/png", size := 2048 }

def bgFileGif : BgFile := { mimetype := "image/gif", size := 2048 }

def bgFileHuge : BgFile := { mimetype := "image/png", size := 11 * 1024 * 1024 }

def bgOracleOk : BgOracle :=
  { readOk := true, bgOk := true, bgBuf := [137, 80, 78, 71], unlinkOk := true,
    dev := false, ptime := "0.42", errMsg := "boom" }

def bgOracleFail : BgOracle :=
  { readOk := true, bgOk := false, bgBuf := [], unlinkOk := true,
    dev := true, ptime := "0.42", errMsg := "boom" }

def simpOracleOk : SimpOracle :=
  { launchOk := true, newPageOk := true, viewportOk := true, contentOk := true,
    shotOk := true, shotBuf := [137, 80, 78, 71], ptime := "0.10", errMsg := "boom" }

/-- The environment of a simple-render request whose `html` is a truthy
non-string: Puppeteer's `setContent` rejects a non-string argument. -/
def simpOracleBadContent : SimpOracle :=
  { launchOk := true, newPageOk := true, viewportOk := true, contentOk := false,
    shotOk := true, shotBuf := [], ptime := "0.10", errMsg := "boom" }

def capOracleOk : CapOracle :=
  { fetchO := fun _ => Except.error (), linksOf := fun _ => [],
    launchOk := true, newPageOk := true, uaOk := true, bypassOk := true,
    viewportOk := true, evalNewDocOk := true, contentOk := true, evalOk := true,
    shotOk := true, pageCloseOk := true, shotBuf := [137, 80, 78, 71],
    dev := false, errMsg := "boom", stackMsg := "stacktrace" }

def cex7Input : List Char := "<scr<script></script>ipt>x</script>".data

def cex10Input : List Char := "<scr<script></script>ipt>y</script>".data

def plainHtml : List Char := "<h1>Hi</h1>".data

def sampleLinkTag : List Char :=
  "<link href=\"https://fonts.googleapis.com/css2?family=Inter\" rel=\"stylesheet\">".data

def sampleHref : List Char := "https://fonts.googleapis.com/css2?family=Inter".data

def fetchAlwaysThrows : List Char → Except Unit FetchResp := fun _ => Except.error ()

/-! ### Lemmas about the character-list machinery -/

theorem ciEqC_comm (a b : Char) : ciEqC a b = ciEqC b a := by
  simp [ciEqC, BEq.comm]

theorem startsWithBy_length {eq : Char → Char → Bool} {pat s : List Char}
    (h : startsWithBy eq pat s = true) : pat.length ≤ s.length := by
  induction pat generalizing s with
  | nil => simp
  | cons p ps ih =>
    cases s with
    | nil => simp [startsWithBy] at h
    | cons c cs =>
      simp only [startsWithBy, Bool.and_eq_true] at h
      simpa using ih h.2

theorem startsWithBy_symm {eq : Char → Char → Bool}
    (heq : ∀ x y, eq x y = eq y x) {a b : List Char}
    (h : startsWithBy eq a b = true) (hl : b.length ≤ a.length) :
    startsWithBy eq b a = true := by
  induction a generalizing b with
  | nil =>
    have hb : b = [] := List.length_eq_zero.mp (Nat.le_zero.mp (by simpa using hl))
    subst hb; rfl
  | cons x xs ih =>
    cases b with
    | nil => rfl
    | cons y ys =>
      simp only [startsWithBy, Bool.and_eq_true] at h ⊢
      exact ⟨by rw [heq]; exact h.1, ih h.2 (by simpa using hl)⟩

theorem startsWithBy_extend {eq : Char → Char → Bool} {pat a : List Char}
    (b : List Char) (h : startsWithBy eq pat a = true) :
    startsWithBy eq pat (a ++ b) = true := by
  induction pat generalizing a with
  | nil => rfl
  | cons p ps ih =>
    cases a with
    | nil => simp [startsWithBy] at h
    | cons c cs =>
      simp only [List.cons_append, startsWithBy, Bool.and_eq_true] at h ⊢
      exact ⟨h.1, ih h.2⟩

theorem startsWithBy_append_left {eq : Char → Char → Bool} {pat a : List Char}
    (b : List Char) (hl : pat.length ≤ a.length) :
    startsWithBy eq pat (a ++ b) = startsWithBy eq pat a := by
  induction pat generalizing a with
  | nil => rfl
  | cons p ps ih =>
    cases a with
    | nil => simp at hl
    | cons c cs =>
      simp only [List.cons_append, startsWithBy]
      congr 1
      exact ih (by simpa using hl)

theorem startsWithBy_append_split {eq : Char → Char → Bool}
    (heq : ∀ x y, eq x y = eq y x) {pat a b : List Char}
    (h : startsWithBy eq pat (a ++ b) = true) :
    startsWithBy eq pat a = true ∨
      (startsWithBy eq a pat = true ∧ startsWithBy eq (pat.drop a.length) b = true) := by
  induction a generalizing pat with
  | nil => exact Or.inr ⟨rfl, by simpa using h⟩
  | cons c cs ih =>
    cases pat with
    | nil => exact Or.inl rfl
    | cons p ps =>
      simp only [List.cons_append, startsWithBy, Bool.and_eq_true] at h
      rcases ih h.2 with h1 | ⟨h2, h3⟩
      · exact Or.inl (by simp only [startsWithBy, Bool.and_eq_true]; exact ⟨h.1, h1⟩)
      · refine Or.inr ⟨?_, ?_⟩
        · simp only [startsWithBy, Bool.and_eq_true]
          exact ⟨by rw [heq]; exact h.1, h2⟩
        · simpa using h3

theorem containsBy_of_startsWith {eq : Char → Char → Bool} {pat s : List Char}
    (h : startsWithBy eq pat s = true) : containsBy eq pat s = true := by
  cases s with
  | nil => exact h
  | cons c cs => simp [containsBy, h]

theorem containsBy_append_left {eq : Char → Char → Bool} {pat a : List Char}
    (b : List Char) (h : containsBy eq pat a = true) :
    containsBy eq pat (a ++ b) = true := by
  induction a with
  | nil =>
    have hp : pat = [] := by
      cases pat with
      | nil => rfl
      | cons p ps => simp [containsBy, startsWithBy] at h
    subst hp
    exact containsBy_of_startsWith rfl
  | cons c cs ih =>
    simp only [containsBy, Bool.or_eq_true] at h
    rcases h with h | h
    · simp only [List.cons_append, containsBy, Bool.or_eq_true]
      exact Or.inl (by simpa [List.cons_append] using startsWithBy_extend b h)
    · simp only [List.cons_append, containsBy, Bool.or_eq_true]
      exact Or.inr (ih h)

theorem containsBy_append_right {eq : Char → Char → Bool} {pat : List Char}
    (a : List Char) {b : List Char} (h : containsBy eq pat b = true) :
    containsBy eq pat (a ++ b) = true := by
  induction a with
  | nil => simpa using h
  | cons c cs ih =>
    simp only [List.cons_append, containsBy, Bool.or_eq_true]
    exact Or.inr ih

theorem containsBy_append_split {eq : Char → Char → Bool}
    (heq : ∀ x y, eq x y = eq y x) {pat a b : List Char}
    (h : containsBy eq pat (a ++ b) = true) :
    containsBy eq pat a = true ∨ containsBy eq pat b = true ∨
      ∃ k, 0 < k ∧ k < pat.length ∧ k ≤ a.length ∧
        startsWithBy eq (a.drop (a.length - k)) pat = true ∧
        startsWithBy eq (pat.drop k) b = true := by
  induction a with
  | nil => exact Or.inr (Or.inl (by simpa using h))
  | cons c cs ih =>
    have h' : startsWithBy eq pat (c :: (cs ++ b)) = true ∨
        containsBy eq pat (cs ++ b) = true := by
      simpa [containsBy, List.cons_append, Bool.or_eq_true] using h
    rcases h' with h1 | h2
    · rcases startsWithBy_append_split heq (a := c :: cs) (b := b)
        (by simpa [List.cons_append] using h1) with hs | ⟨hswap, hcont⟩
      · exact Or.inl (containsBy_of_startsWith hs)
      · have hlen := startsWithBy_length hswap
        by_cases hk : (c :: cs).length = pat.length
        · have hrev : startsWithBy eq pat (c :: cs) = true :=
            startsWithBy_symm heq hswap (le_of_eq hk.symm)
          exact Or.inl (containsBy_of_startsWith hrev)
        · refine Or.inr (Or.inr ⟨(c :: cs).length, by simp,
            lt_of_le_of_ne hlen hk, le_refl _, ?_, hcont⟩)
          simpa using hswap
    · rcases ih h2 with h3 | h3 | ⟨k, hk0, hklt, hkle, hsuf, hb2⟩
      · refine Or.inl ?_
        simp only [containsBy, Bool.or_eq_true]
        exact Or.inr h3
      · exact Or.inr (Or.inl h3)
      · refine Or.inr (Or.inr ⟨k, hk0, hklt, by simpa using Nat.le_succ_of_le hkle, ?_, hb2⟩)
        have hdrop : (c :: cs).length - k = (cs.length - k) + 1 := by
          simp only [List.length_cons]; omega
        rw [hdrop]
        simpa using hsuf

theorem containsBy_insert_false {eq : Char → Char → Bool}
    (heq : ∀ x y, eq x y = eq y x) {pat L x y : List Char}
    (hx : containsBy eq pat x = false) (hy : containsBy eq pat y = false)
    (hL : containsBy eq pat L = false)
    (hlen : pat.length ≤ L.length)
    (h1 : ∀ k, k < pat.length → 0 < k → startsWithBy eq (L.drop (L.length - k)) pat = false)
    (h2 : ∀ k, k < pat.length → 0 < k → startsWithBy eq (pat.drop k) L = false) :
    containsBy eq pat (x ++ (L ++ y)) = false := by
  cases hc : containsBy eq pat (x ++ (L ++ y)) with
  | false => rfl
  | true =>
    exfalso
    rcases containsBy_append_split heq hc with h | h | ⟨k, hk0, hklt, _, _, hspan⟩
    · rw [hx] at h; exact Bool.false_ne_true h
    · rcases containsBy_append_split heq h with h' | h' | ⟨k, hk0, hklt, _, hsuf, _⟩
      · rw [hL] at h'; exact Bool.false_ne_true h'
      · rw [hy] at h'; exact Bool.false_ne_true h'
      · rw [h1 k hklt hk0] at hsuf; exact Bool.false_ne_true hsuf
    · have hcut : startsWithBy eq (pat.drop k) (L ++ y) = startsWithBy eq (pat.drop k) L :=
        startsWithBy_append_left y (by simp only [List.length_drop]; omega)
      rw [hcut, h2 k hklt hk0] at hspan
      exact Bool.false_ne_true hspan

theorem containsCI_insert_safe {pat L x y : List Char} (hs : insertSafe pat L)
    (hx : containsCI pat x = false) (hy : containsCI pat y = false) :
    containsCI pat (x ++ (L ++ y)) = false :=
  containsBy_insert_false ciEqC_comm hx hy hs.1 hs.2.1 hs.2.2.1 hs.2.2.2

theorem startsWithCS_decomp {pat s : List Char} (h : startsWithCS pat s = true) :
    s = pat ++ s.drop pat.length := by
  induction pat generalizing s with
  | nil => simp
  | cons p ps ih =>
    cases s with
    | nil => simp [startsWithCS, startsWithBy] at h
    | cons c cs =>
      simp only [startsWithCS, startsWithBy, Bool.and_eq_true, csEqC] at h
      have hpc : p = c := by simpa using h.1
      subst hpc
      have htail := ih (show startsWithCS ps cs = true from h.2)
      simp only [List.cons_append, List.length_cons, List.drop_succ_cons]
      exact congrArg (List.cons p) htail

theorem replaceFirst_spec (pat rep : List Char) {s : List Char}
    (h : containsCS pat s = true) :
    ∃ x y, s = x ++ pat ++ y ∧
      (∀ i, i < x.length → startsWithCS pat (s.drop i) = false) ∧
      replaceFirst pat rep s = x ++ rep ++ y := by
  induction s with
  | nil =>
    have hp : startsWithCS pat [] = true := h
    have hnil : pat = [] := by
      cases pat with
      | nil => rfl
      | cons p ps => simp [startsWithCS, startsWithBy] at hp
    subst hnil
    exact ⟨[], [], rfl, by simp,
      by simp [replaceFirst, startsWithCS, startsWithBy]⟩
  | cons c cs ih =>
    by_cases hs : startsWithCS pat (c :: cs) = true
    · refine ⟨[], (c :: cs).drop pat.length, ?_, by simp, ?_⟩
      · simpa using startsWithCS_decomp hs
      · simp [replaceFirst, hs]
    · have htail : containsCS pat cs = true := by
        have hh := h
        simp only [containsCS, containsBy, Bool.or_eq_true] at hh
        rcases hh with h1 | h1
        · exact absurd h1 hs
        · exact h1
      rcases ih htail with ⟨x, y, hxy, hfirst, hrep⟩
      refine ⟨c :: x, y, by simp [hxy], ?_, ?_⟩
      · intro i hi
        cases i with
        | zero => simpa using hs
        | succ j =>
          have hj : j < x.length := by simpa using hi
          simpa using hfirst j hj
      · simp only [replaceFirst, if_neg hs]
        simpa using hrep

theorem stripGo_id (matchLen : List Char → Option Nat) :
    ∀ (fuel : Nat) {s : List Char}, anyMatchBy matchLen s = false →
      stripGo matchLen fuel s = s := by
  intro fuel
  induction fuel with
  | zero => intro s _; rfl
  | succ n ih =>
    intro s h
    cases s with
    | nil => rfl
    | cons c cs =>
      have h' : (matchLen (c :: cs)).isSome = false ∧ anyMatchBy matchLen cs = false := by
        simpa [anyMatchBy] using h
      have hnone : matchLen (c :: cs) = none := by
        cases hm : matchLen (c :: cs) with
        | none => rfl
        | some l => exact absurd h'.1 (by simp [hm])
      simp only [stripGo, hnone]
      rw [ih h'.2]

theorem stripScripts_id {s : List Char} (h : anyScriptMatch s = false) :
    stripScripts s = s := stripGo_id scriptMatchLen s.length h

theorem stripIframes_id {s : List Char} (h : anyIframeMatch s = false) :
    stripIframes s = s := stripGo_id iframeMatchLen s.length h

theorem scriptMatchLen_starts {s : List Char} {len : Nat}
    (h : scriptMatchLen s = some len) : startsWithCI scriptPatD s = true := by
  cases hc : startsWithCI scriptPatD s with
  | true => rfl
  | false =>
    exfalso
    unfold scriptMatchLen at h
    rw [hc] at h
    simp at h

theorem iframeMatchLen_starts {s : List Char} {len : Nat}
    (h : iframeMatchLen s = some len) : startsWithCI iframePatD s = true := by
  cases hc : startsWithCI iframePatD s with
  | true => rfl
  | false =>
    exfalso
    unfold iframeMatchLen at h
    rw [hc] at h
    simp at h

theorem anyMatch_false_of_contains {matchLen : List Char → Option Nat} {pat : List Char}
    (hstart : ∀ t len, matchLen t = some len → startsWithBy ciEqC pat t = true)
    {s : List Char} (h : containsBy ciEqC pat s = false) :
    anyMatchBy matchLen s = false := by
  induction s with
  | nil =>
    cases hm : matchLen [] with
    | none => simp [anyMatchBy, hm]
    | some l =>
      have hsw := hstart [] l hm
      rw [show containsBy ciEqC pat [] = startsWithBy ciEqC pat [] from rfl, hsw] at h
      cases h
  | cons c cs ih =>
    have h' : startsWithBy ciEqC pat (c :: cs) = false ∧ containsBy ciEqC pat cs = false := by
      simpa [containsBy] using h
    have hnone : matchLen (c :: cs) = none := by
      cases hm : matchLen (c :: cs) with
      | none => rfl
      | some l =>
        have := hstart (c :: cs) l hm
        rw [this] at h'
        simp at h'
    simp [anyMatchBy, hnone, ih h'.2]

theorem anyScriptMatch_false {s : List Char} (h : containsCI scriptPatD s = false) :
    anyScriptMatch s = false :=
  anyMatch_false_of_contains (fun _ _ hm => scriptMatchLen_starts hm) h

theorem anyIframeMatch_false {s : List Char} (h : containsCI iframePatD s = false) :
    anyIframeMatch s = false :=
  anyMatch_false_of_contains (fun _ _ hm => iframeMatchLen_starts hm) h

theorem csEqC_refl (a : Char) : csEqC a a = true := by simp [csEqC]

theorem startsWithBy_refl {eq : Char → Char → Bool} (hrefl : ∀ a, eq a a = true)
    (p z : List Char) : startsWithBy eq p (p ++ z) = true := by
  induction p with
  | nil => rfl
  | cons c cs ih =>
    simp only [List.cons_append, startsWithBy, Bool.and_eq_true]
    exact ⟨hrefl c, ih⟩

theorem injectPreconnects_contains_false {pat h : List Char}
    (hpat : startsWithCI pat [] = false)
    (hcases : ∀ L ∈ [googLinkD ++ gstaticLinkD, googLinkD, gstaticLinkD],
      insertSafe pat L ∧ insertSafe pat (L ++ headCloseD))
    (hh : containsCI pat h = false) :
    containsCI pat (injectPreconnects h) = false := by
  have key : ∀ L : List Char, insertSafe pat L → insertSafe pat (L ++ headCloseD) →
      containsCI pat
        (if containsCS headCloseD h then replaceFirst headCloseD (L ++ headCloseD) h
         else L ++ h) = false := by
    intro L hsafe1 hsafe2
    by_cases hhead : containsCS headCloseD h = true
    · rw [if_pos hhead]
      obtain ⟨x, y, hxy, -, hrep⟩ := replaceFirst_spec headCloseD (L ++ headCloseD) hhead
      rw [hrep, List.append_assoc]
      have hx : containsCI pat x = false := by
        cases hcx : containsCI pat x with
        | false => rfl
        | true =>
          exfalso
          have hmono := containsBy_append_left (headCloseD ++ y) hcx
          rw [← List.append_assoc, ← hxy] at hmono
          have hctr : containsCI pat h = true := hmono
          rw [hh] at hctr
          exact Bool.false_ne_true hctr
      have hy : containsCI pat y = false := by
        cases hcy : containsCI pat y with
        | false => rfl
        | true =>
          exfalso
          have hmono := containsBy_append_right (x ++ headCloseD) hcy
          rw [← hxy] at hmono
          have hctr : containsCI pat h = true := hmono
          rw [hh] at hctr
          exact Bool.false_ne_true hctr
      exact containsCI_insert_safe hsafe2 hx hy
    · rw [if_neg hhead]
      have hres := containsCI_insert_safe (x := []) (y := h) hsafe1 hpat hh
      simpa using hres
  have hne1 : (googLinkD ++ gstaticLinkD).isEmpty = false := by decide
  have hne2 : googLinkD.isEmpty = false := by decide
  have hne3 : gstaticLinkD.isEmpty = false := by decide
  unfold injectPreconnects
  cases hg : hasPreG h with
  | true =>
    cases hgs : hasPreGs h with
    | true => simpa using hh
    | false =>
      simpa [hne3] using key gstaticLinkD
        ((hcases gstaticLinkD (by simp)).1) ((hcases gstaticLinkD (by simp)).2)
  | false =>
    cases hgs : hasPreGs h with
    | true =>
      simpa [hne2] using key googLinkD
        ((hcases googLinkD (by simp)).1) ((hcases googLinkD (by simp)).2)
    | false =>
      simpa [hne1] using key (googLinkD ++ gstaticLinkD)
        ((hcases (googLinkD ++ gstaticLinkD) (by simp)).1)
        ((hcases (googLinkD ++ gstaticLinkD) (by simp)).2)

theorem processed_eq_inject {h : List Char}
    (hs : containsCI scriptPatD h = false) (hi : containsCI iframePatD h = false) :
    processHtmlForRendering h = injectPreconnects h ∧
      containsCI scriptPatD (processHtmlForRendering h) = false ∧
      containsCI iframePatD (processHtmlForRendering h) = false := by
  have hinj_s : containsCI scriptPatD (injectPreconnects h) = false :=
    injectPreconnects_contains_false (by decide) (by decide) hs
  have hinj_i : containsCI iframePatD (injectPreconnects h) = false :=
    injectPreconnects_contains_false (by decide) (by decide) hi
  have hstrip : stripScripts (injectPreconnects h) = injectPreconnects h :=
    stripScripts_id (anyScriptMatch_false hinj_s)
  have heq : processHtmlForRendering h = injectPreconnects h := by
    unfold processHtmlForRendering
    rw [hstrip]
    exact stripIframes_id (anyIframeMatch_false hinj_i)
  exact ⟨heq, by rw [heq]; exact hinj_s, by rw [heq]; exact hinj_i⟩

theorem inject_id_of_present {h : List Char} (hg : hasPreG h = true)
    (hgs : hasPreGs h = true) : injectPreconnects h = h := by
  simp [injectPreconnects, hg, hgs]

theorem injected_has_goog {h : List Char} (hg : hasPreG h = false) :
    containsCS googLinkD (injectPreconnects h) = true := by
  have hstart : ∀ z : List Char, containsCS googLinkD (googLinkD ++ z) = true :=
    fun z => containsBy_of_startsWith (startsWithBy_refl csEqC_refl googLinkD z)
  have hne1 : (googLinkD ++ gstaticLinkD).isEmpty = false := by decide
  have hne2 : googLinkD.isEmpty = false := by decide
  unfold injectPreconnects
  cases hgs : hasPreGs h with
  | true =>
    by_cases hhead : containsCS headCloseD h = true
    · obtain ⟨x, y, hxy, -, hrep⟩ := replaceFirst_spec headCloseD (googLinkD ++ headCloseD) hhead
      simp only [hg, hgs, if_true, if_false, hne2, List.append_nil,
        Bool.false_eq_true, hhead, hrep, List.append_assoc]
      exact containsBy_append_right x (hstart _)
    · simp only [hg, hgs, if_true, if_false, hne2, List.append_nil,
        Bool.false_eq_true, hhead, List.append_assoc]
      exact hstart h
  | false =>
    by_cases hhead : containsCS headCloseD h = true
    · obtain ⟨x, y, hxy, -, hrep⟩ :=
        replaceFirst_spec headCloseD (googLinkD ++ gstaticLinkD ++ headCloseD) hhead
      simp only [hg, hgs, if_true, if_false, hne1, Bool.false_eq_true, hhead]
      rw [hrep]
      simp only [List.append_assoc]
      exact containsBy_append_right x (hstart _)
    · simp only [hg, hgs, if_false, hne1, Bool.false_eq_true, hhead,
        List.append_assoc]
      exact hstart _

theorem injected_has_gstatic {h : List Char} (hgs : hasPreGs h = false) :
    containsCS gstaticLinkD (injectPreconnects h) = true := by
  have hstart : ∀ z : List Char, containsCS gstaticLinkD (gstaticLinkD ++ z) = true :=
    fun z => containsBy_of_startsWith (startsWithBy_refl csEqC_refl gstaticLinkD z)
  have hne1 : (googLinkD ++ gstaticLinkD).isEmpty = false := by decide
  have hne3 : gstaticLinkD.isEmpty = false := by decide
  unfold injectPreconnects
  cases hg : hasPreG h with
  | true =>
    by_cases hhead : containsCS headCloseD h = true
    · obtain ⟨x, y, hxy, -, hrep⟩ := replaceFirst_spec headCloseD (gstaticLinkD ++ headCloseD) hhead
      simp only [hg, hgs, if_true, if_false, hne3, List.nil_append,
        Bool.false_eq_true, hhead, hrep, List.append_assoc]
      exact containsBy_append_right x (hstart _)
    · simp only [hg, hgs, if_true, if_false, hne3, List.nil_append,
        Bool.false_eq_true, hhead, List.append_assoc]
      exact hstart h
  | false =>
    by_cases hhead : containsCS headCloseD h = true
    · obtain ⟨x, y, hxy, -, hrep⟩ :=
        replaceFirst_spec headCloseD (googLinkD ++ gstaticLinkD ++ headCloseD) hhead
      simp only [hg, hgs, if_true, if_false, hne1, Bool.false_eq_true, hhead]
      rw [hrep]
      simp only [List.append_assoc]
      exact containsBy_append_right x (containsBy_append_right googLinkD (hstart _))
    · simp only [hg, hgs, if_false, hne1, Bool.false_eq_true, hhead,
        List.append_assoc]
      exact containsBy_append_right googLinkD (hstart _)

theorem inject_prepend {h : List Char} (hg : hasPreG h = false)
    (hgs : hasPreGs h = false) (hhead : containsCS headCloseD h = false) :
    injectPreconnects h = (googLinkD ++ gstaticLinkD) ++ h := by
  have hne1 : (googLinkD ++ gstaticLinkD).isEmpty = false := by decide
  simp [injectPreconnects, hg, hgs, hhead, hne1]

/-- With no `</head>` in the input, the injection step prepends exactly the
links whose presence check failed (none, one, or both, googleapis first). -/
theorem inject_no_head {h : List Char} (hhead : containsCS headCloseD h = false) :
    injectPreconnects h =
      ((if hasPreG h then [] else googLinkD) ++
        (if hasPreGs h then [] else gstaticLinkD)) ++ h := by
  have hne1 : (googLinkD ++ gstaticLinkD).isEmpty = false := by decide
  have hne2 : googLinkD.isEmpty = false := by decide
  have hne3 : gstaticLinkD.isEmpty = false := by decide
  unfold injectPreconnects
  cases hg : hasPreG h <;> cases hgs : hasPreGs h <;>
    simp [hg, hgs, hhead, hne1, hne2, hne3]

/-- With a `</head>` in the input, the injection step inserts exactly the
links whose presence check failed immediately before the *first* `</head>`
occurrence (the decomposition below carries the no-earlier-occurrence fact,
matching `replace`'s first-match semantics). -/
theorem inject_with_head {h : List Char} (hhead : containsCS headCloseD h = true) :
    ∃ x y, h = x ++ headCloseD ++ y ∧
      (∀ i, i < x.length → startsWithCS headCloseD (h.drop i) = false) ∧
      injectPreconnects h =
        x ++ ((if hasPreG h then [] else googLinkD) ++
          (if hasPreGs h then [] else gstaticLinkD)) ++ headCloseD ++ y := by
  have hne1 : (googLinkD ++ gstaticLinkD).isEmpty = false := by decide
  have hne2 : googLinkD.isEmpty = false := by decide
  have hne3 : gstaticLinkD.isEmpty = false := by decide
  cases hg : hasPreG h with
  | true =>
    cases hgs : hasPreGs h with
    | true =>
      obtain ⟨x, y, hxy, hfirst, -⟩ := replaceFirst_spec headCloseD headCloseD hhead
      refine ⟨x, y, hxy, hfirst, ?_⟩
      rw [inject_id_of_present hg hgs, hxy]
      simp [hg, hgs]
    | false =>
      obtain ⟨x, y, hxy, hfirst, hrep⟩ :=
        replaceFirst_spec headCloseD (gstaticLinkD ++ headCloseD) hhead
      refine ⟨x, y, hxy, hfirst, ?_⟩
      have hinj : injectPreconnects h =
          replaceFirst headCloseD (gstaticLinkD ++ headCloseD) h := by
        unfold injectPreconnects
        simp [hg, hgs, hhead, hne3]
      rw [hinj, hrep]
      simp [hg, hgs, List.append_assoc]
  | false =>
    cases hgs : hasPreGs h with
    | true =>
      obtain ⟨x, y, hxy, hfirst, hrep⟩ :=
        replaceFirst_spec headCloseD (googLinkD ++ headCloseD) hhead
      refine ⟨x, y, hxy, hfirst, ?_⟩
      have hinj : injectPreconnects h =
          replaceFirst headCloseD (googLinkD ++ headCloseD) h := by
        unfold injectPreconnects
        simp [hg, hgs, hhead, hne2]
      rw [hinj, hrep]
      simp [hg, hgs, List.append_assoc]
    | false =>
      obtain ⟨x, y, hxy, hfirst, hrep⟩ :=
        replaceFirst_spec headCloseD (googLinkD ++ gstaticLinkD ++ headCloseD) hhead
      refine ⟨x, y, hxy, hfirst, ?_⟩
      have hinj : injectPreconnects h =
          replaceFirst headCloseD (googLinkD ++ gstaticLinkD ++ headCloseD) h := by
        unfold injectPreconnects
        simp [hg, hgs, hhead, hne1]
      rw [hinj, hrep]
      simp [hg, hgs, List.append_assoc]

/-- C7 (counterexample): the claim "for every input HTML string, the output
of `processHtmlForRendering` contains no `<script>...</script>` constructs"
is false.  On the input `<scr<script></script>ipt>x</script>`, removing the
embedded script match splices the surrounding fragments into a fresh
`<script>x</script>` construct, which the single left-to-right pass never
revisits, so the output still contains a script-regex match. -/
theorem claim_c7_counterexample :
    anyScriptMatch (processHtmlForRendering cex7Input) = true := by decide

/-- C7 (amended): for every input containing no case-insensitive occurrence
of `<script` and none of `<iframe`, the output of `processHtmlForRendering`
contains no script construct and no iframe construct; it contains the
literal googleapis preconnect link whenever the presence-check regex did not
already match the input, likewise for gstatic; when both checks already
match, the input passes through unchanged; when no `</head>` is present the
output prepends exactly the links whose check failed (googleapis first,
each added only if not already present); and when `</head>` is present the
output inserts exactly those links immediately before the first `</head>`
occurrence.  (For general inputs the stripping pass can splice new script
constructs, and iframes spanning line terminators are not removed, as the
counterexample shows.) -/
theorem claim_c7_amended (h : List Char)
    (hs : containsCI scriptPatD h = false) (hi : containsCI iframePatD h = false) :
    anyScriptMatch (processHtmlForRendering h) = false ∧
    anyIframeMatch (processHtmlForRendering h) = false ∧
    (hasPreG h = false → containsCS googLinkD (processHtmlForRendering h) = true) ∧
    (hasPreGs h = false → containsCS gstaticLinkD (processHtmlForRendering h) = true) ∧
    (hasPreG h = true → hasPreGs h = true → processHtmlForRendering h = h) ∧
    (containsCS headCloseD h = false →
      processHtmlForRendering h =
        ((if hasPreG h then [] else googLinkD) ++
          (if hasPreGs h then [] else gstaticLinkD)) ++ h) ∧
    (containsCS headCloseD h = true →
      ∃ x y, h = x ++ headCloseD ++ y ∧
        (∀ i, i < x.length → startsWithCS headCloseD (h.drop i) = false) ∧
        processHtmlForRendering h =
          x ++ ((if hasPreG h then [] else googLinkD) ++
            (if hasPreGs h then [] else gstaticLinkD)) ++ headCloseD ++ y) := by
  obtain ⟨heq, hws, hwi⟩ := processed_eq_inject hs hi
  refine ⟨anyScriptMatch_false hws, anyIframeMatch_false hwi, ?_, ?_, ?_, ?_, ?_⟩
  · intro hg
    rw [heq]
    exact injected_has_goog hg
  · intro hgs
    rw [heq]
    exact injected_has_gstatic hgs
  · intro hg hgs
    rw [heq]
    exact inject_id_of_present hg hgs
  · intro hhead
    rw [heq]
    exact inject_no_head hhead
  · intro hhead
    rw [heq]
    exact inject_with_head hhead

/-- C7 (witness): the amended theorem applied to the concrete input
`<h1>Hi</h1>`: the processed output has no script construct, contains the
googleapis preconnect link, and (having no `</head>`) is exactly the two
missing links prepended to the input. -/
theorem claim_c7_witness :
    anyScriptMatch (processHtmlForRendering plainHtml) = false ∧
    containsCS googLinkD (processHtmlForRendering plainHtml) = true ∧
    processHtmlForRendering plainHtml =
      ((if hasPreG plainHtml then [] else googLinkD) ++
        (if hasPreGs plainHtml then [] else gstaticLinkD)) ++ plainHtml :=
  ⟨(claim_c7_amended plainHtml (by decide) (by decide)).1,
   (claim_c7_amended plainHtml (by decide) (by decide)).2.2.1 (by decide),
   (claim_c7_amended plainHtml (by decide) (by decide)).2.2.2.2.2.1 (by decide)⟩

/-- C10 (counterexample): `processHtmlForRendering` is not idempotent.  On
`<scr<script></script>ipt>y</script>` the first pass leaves a spliced
`<script>y</script>` construct in its output, and a second pass removes it,
so the two results differ. -/
theorem claim_c10_counterexample :
    processHtmlForRendering (processHtmlForRendering cex10Input) ≠
      processHtmlForRendering cex10Input := by decide

/-- C10 (amended): the presence-check regexes do match the literal links the
first pass inserts (so a second pass injects no duplicate preconnect links);
and `processHtmlForRendering` is idempotent on every input whose first-pass
output contains no residual script or iframe match and satisfies both
presence checks.  Full idempotence fails because a first pass can leave
spliced script constructs that a second pass removes, as the counterexample
shows. -/
theorem claim_c10_amended :
    hasPreG googLinkD = true ∧ hasPreGs gstaticLinkD = true ∧
    ∀ h : List Char,
      anyScriptMatch (processHtmlForRendering h) = false →
      anyIframeMatch (processHtmlForRendering h) = false →
      hasPreG (processHtmlForRendering h) = true →
      hasPreGs (processHtmlForRendering h) = true →
      processHtmlForRendering (processHtmlForRendering h) = processHtmlForRendering h := by
  refine ⟨by decide, by decide, ?_⟩
  intro h hsm him hg hgs
  have hunfold : processHtmlForRendering (processHtmlForRendering h) =
      stripIframes (stripScripts (injectPreconnects (processHtmlForRendering h))) := rfl
  rw [hunfold, inject_id_of_present hg hgs, stripScripts_id hsm, stripIframes_id him]

/-- C10 (witness): the amended theorem applied to the concrete input
`<h1>Hi</h1>`, whose first-pass output is a fixpoint. -/
theorem claim_c10_witness :
    processHtmlForRendering (processHtmlForRendering plainHtml) =
      processHtmlForRendering plainHtml :=
  claim_c10_amended.2.2 plainHtml (by decide) (by decide) (by decide) (by decide)

theorem inlineGoogleFontsAux_ok (fetchO : List Char → Except Unit FetchResp)
    (links : List (List Char)) (html : List Char) :
    inlineGoogleFontsAux fetchO links html =
      Except.ok (List.foldl (inlineStep fetchO) html links) := by
  induction links generalizing html with
  | nil => rfl
  | cons l ls ih =>
    have hstep : inlineStep fetchO html l =
        (match inlineStepBody fetchO html l with
         | Except.ok s => s
         | Except.error _ => html) := rfl
    unfold inlineGoogleFontsAux at ih ⊢
    rw [List.foldlM_cons, List.foldl_cons]
    cases hsb : inlineStepBody fetchO html l with
    | ok s =>
      rw [hstep, hsb]
      simpa [hsb] using ih s
    | error e =>
      rw [hstep, hsb]
      simpa [hsb] using ih html

theorem captureHtml_openAtEnd (o : CapOracle) (cs : List Char)
    (w h d : Option Int) : (captureHtml o cs w h d).openAtEnd = false := by
  simp only [captureHtml, apply_ite CapResult.openAtEnd]
  simp

theorem captureHtml_dims (o : CapOracle) (cs : List Char) (w h d : Option Int) :
    (captureHtml o cs w h d).dims = some (w.getD 1200, h.getD 800, d.getD 2) := by
  simp only [captureHtml, apply_ite CapResult.dims]
  simp

theorem captureHtml_result_ok {o : CapOracle} {cs : List Char}
    {w h d : Option Int} {buf : List Nat}
    (hres : (captureHtml o cs w h d).result = Except.ok buf) : buf = o.shotBuf := by
  simp only [captureHtml, apply_ite CapResult.result] at hres
  split_ifs at hres
  all_goals simp at hres
  exact hres.symm

/-- C4: the font-inlining step swallows every failure and keeps the link tag.
The loop body (lines 286–297) never throws once the inner catch is applied
(the outer try body always yields an `ok` result, namely the fold of the
caught steps); an iteration whose fetch rejects, or whose response is
non-ok, returns its accumulator unchanged — the original `<link>` tag stays
in place — and only a successful fetch replaces the first occurrence of the
link tag by the inline `<style data-inlined-google-fonts>` tag; when every
collected link's fetch fails, the whole function returns the input html
verbatim. -/
theorem claim_c4 (fetchO : List Char → Except Unit FetchResp)
    (links : List (List Char)) (html acc link href : List Char) (r : FetchResp) :
    inlineGoogleFontsAux fetchO links html =
      Except.ok (inlineGoogleFonts fetchO links html) ∧
    (hrefOf link = some href → fetchO href = Except.error () →
      inlineStep fetchO acc link = acc) ∧
    (hrefOf link = some href → fetchO href = Except.ok r → r.ok = false →
      inlineStep fetchO acc link = acc) ∧
    (hrefOf link = some href → fetchO href = Except.ok r → r.ok = true →
      inlineStep fetchO acc link =
        replaceFirst link (styleTagFor (fixCss r.body)) acc) ∧
    ((∀ l ∈ links, ∀ hr, hrefOf l = some hr →
        fetchO hr = Except.error () ∨ ∃ rr, fetchO hr = Except.ok rr ∧ rr.ok = false) →
      inlineGoogleFonts fetchO links html = html) := by
  refine ⟨?_, ?_, ?_, ?_, ?_⟩
  · unfold inlineGoogleFonts
    rw [inlineGoogleFontsAux_ok]
  · intro h1 h2
    simp [inlineStep, inlineStepBody, h1, h2]
  · intro h1 h2 h3
    simp [inlineStep, inlineStepBody, h1, h2, h3]
  · intro h1 h2 h3
    simp [inlineStep, inlineStepBody, h1, h2, h3]
  · intro hall
    unfold inlineGoogleFonts
    rw [inlineGoogleFontsAux_ok]
    induction links with
    | nil => rfl
    | cons l ls ih =>
      have hstep : inlineStep fetchO html l = html := by
        cases hhref : hrefOf l with
        | none => simp [inlineStep, inlineStepBody, hhref]
        | some hr =>
          rcases hall l (by simp) hr hhref with hfail | ⟨rr, hok, hrr⟩
          · simp [inlineStep, inlineStepBody, hhref, hfail]
          · simp [inlineStep, inlineStepBody, hhref, hok, hrr]
      rw [List.foldl_cons, hstep]
      exact ih (fun l2 hl2 => hall l2 (by simp [hl2]))

/-- C4 (witness): with a fetch oracle that always rejects, the iteration on a
concrete stylesheet link leaves the accumulator unchanged and the whole
function returns the input html. -/
theorem claim_c4_witness :
    inlineStep fetchAlwaysThrows plainHtml sampleLinkTag = plainHtml ∧
    inlineGoogleFonts fetchAlwaysThrows [sampleLinkTag] plainHtml = plainHtml :=
  ⟨(claim_c4 fetchAlwaysThrows [sampleLinkTag] plainHtml plainHtml sampleLinkTag
      sampleHref ⟨true, []⟩).2.1 (by decide) rfl,
   (claim_c4 fetchAlwaysThrows [sampleLinkTag] plainHtml plainHtml sampleLinkTag
      sampleHref ⟨true, []⟩).2.2.2.2
      (fun _ _ _ _ => Or.inl rfl)⟩

/-- C1 (counterexample): a multipart request carrying a `image/gif` file is
not answered with status 400.  The multer `fileFilter` rejects it with a
plain `Error`, and with no error-handling middleware registered the request
ends with Express's default status 500. -/
theorem claim_c1_counterexample :
    (removeBackgroundRoute bgOracleOk (some bgFileGif)).status = 500 ∧
    (removeBackgroundRoute bgOracleOk (some bgFileGif)).status ≠ 400 ∧
    (removeBackgroundRoute bgOracleOk (some bgFileGif)).reached = false := by
  refine ⟨by decide, by decide, by decide⟩

/-- C1 (amended): a request with no file gets status 400 from the handler;
a file with a disallowed MIME type, or one exceeding the 10 MB limit, is
rejected *before* the handler by the upload middleware, whose error — with
no error-handling middleware installed — yields status 500, not 400; and
only requests carrying an allowed-type file of at most 10 MB reach the
background-removal processing. -/
theorem claim_c1_amended (o : BgOracle) (file : Option BgFile) :
    (file = none → (removeBackgroundRoute o file).status = 400 ∧
      (removeBackgroundRoute o file).reached = false) ∧
    (∀ f, file = some f → fileFilterAccepts f = false →
      (removeBackgroundRoute o file).status = 500 ∧
      (removeBackgroundRoute o file).reached = false) ∧
    (∀ f, file = some f → fileFilterAccepts f = true → bgSizeLimit < f.size →
      (removeBackgroundRoute o file).status = 500 ∧
      (removeBackgroundRoute o file).reached = false) ∧
    (∀ f, file = some f → fileFilterAccepts f = true → f.size ≤ bgSizeLimit →
      (removeBackgroundRoute o file).reached = true) := by
  refine ⟨?_, ?_, ?_, ?_⟩
  · rintro rfl
    exact ⟨rfl, rfl⟩
  · rintro f rfl hf
    simp [removeBackgroundRoute, hf]
  · rintro f rfl hf hsz
    simp [removeBackgroundRoute, hf, hsz]
  · rintro f rfl hf hsz
    have hroute : removeBackgroundRoute o (some f) = bgHandlerBody o := by
      simp [removeBackgroundRoute, hf, Nat.not_lt.mpr hsz]
    rw [hroute]
    unfold bgHandlerBody
    split_ifs <;> rfl

/-- C1 (witness): the amended theorem at concrete requests — no file gives
400, a small PNG reaches processing, an 11 MB PNG gives 500. -/
theorem claim_c1_witness :
    (removeBackgroundRoute bgOracleOk none).status = 400 ∧
    (removeBackgroundRoute bgOracleOk (some bgFilePng)).reached = true ∧
    (removeBackgroundRoute bgOracleOk (some bgFileHuge)).status = 500 :=
  ⟨((claim_c1_amended bgOracleOk none).1 rfl).1,
   (claim_c1_amended bgOracleOk (some bgFilePng)).2.2.2 bgFilePng rfl
     (by decide) (by decide),
   ((claim_c1_amended bgOracleOk (some bgFileHuge)).2.2.1 bgFileHuge rfl
     (by decide) (by decide)).1⟩

/-- C2 (counterexample): a render request whose `html` is the number 42 —
not a string — is not rejected with 400 by the simple `/api/render` variant.
`if (!html)` lets every truthy value through, so the handler launches a
browser and (after `setContent` rejects the non-string) ends with 500. -/
theorem claim_c2_counterexample :
    (apiRenderSimple simpOracleBadContent (JSVal.num 42) none none).status = 500 ∧
    (apiRenderSimple simpOracleBadContent (JSVal.num 42) none none).status ≠ 400 ∧
    (apiRenderSimple simpOracleBadContent (JSVal.num 42) none none).launched = true := by
  refine ⟨by decide, by decide, by decide⟩

/-- C2 (amended): the enhanced `/render` variant rejects every non-string or
empty-string `html` with status 400 without launching a browser; the simple
`/api/render` variant rejects with 400 (and no browser) exactly the *falsy*
values, and for every truthy `html` — string or not — it proceeds to launch
a browser whenever the launch succeeds. -/
theorem claim_c2_amended (so : SimpOracle) (co : CapOracle) (v : JSVal)
    (w h d : Option Int) :
    (v.truthy = false → (apiRenderSimple so v w h).status = 400 ∧
      (apiRenderSimple so v w h).launched = false) ∧
    ((v.isStr = false ∨ v = JSVal.str "") →
      (renderEnhanced co v w h d).status = 400 ∧
      (renderEnhanced co v w h d).launched = false) ∧
    (v.truthy = true → (apiRenderSimple so v w h).launched = so.launchOk) := by
  refine ⟨?_, ?_, ?_⟩
  · intro hv
    simp [apiRenderSimple, hv]
  · intro hv
    cases v with
    | str s =>
      rcases hv with h1 | h1
      · exact absurd h1 (by simp [JSVal.isStr])
      · have hs : s = "" := by injection h1
        subst hs
        exact ⟨rfl, rfl⟩
    | num n => exact ⟨rfl, rfl⟩
    | boolean b => exact ⟨rfl, rfl⟩
    | null => exact ⟨rfl, rfl⟩
    | undef => exact ⟨rfl, rfl⟩
    | obj => exact ⟨rfl, rfl⟩
    | arr => exact ⟨rfl, rfl⟩
  · intro hv
    cases hl : so.launchOk with
    | false => simp [apiRenderSimple, hv, hl]
    | true =>
      simp only [apiRenderSimple, hv, hl, Bool.not_true, Bool.false_eq_true,
        if_false]
      split_ifs <;> rfl

/-- C2 (witness): the amended theorem at concrete inputs — empty string gets
400 from the simple variant; the number 7 gets 400 from the enhanced variant
without a browser launch. -/
theorem claim_c2_witness :
    (apiRenderSimple simpOracleOk (JSVal.str "") none none).status = 400 ∧
    (renderEnhanced capOracleOk (JSVal.num 7) none none none).status = 400 ∧
    (renderEnhanced capOracleOk (JSVal.num 7) none none none).launched = false :=
  ⟨((claim_c2_amended simpOracleOk capOracleOk (JSVal.str "") none none none).1
      (by decide)).1,
   ((claim_c2_amended simpOracleOk capOracleOk (JSVal.num 7) none none none).2.1
      (Or.inl (by decide))).1,
   ((claim_c2_amended simpOracleOk capOracleOk (JSVal.num 7) none none none).2.1
      (Or.inl (by decide))).2⟩

/-- C3: for every remove-background request that reached the handler with a
saved temp file, in an environment where `fs.unlink` succeeds, the handler
leaves no temp file behind on the success path and on every failure path;
and every non-200 outcome is the generic 500 error whose `details` field is
the error message exactly when NODE_ENV is `development` and undefined
otherwise. -/
theorem claim_c3 (o : BgOracle) (hunlink : o.unlinkOk = true) :
    (bgHandlerBody o).tempExists = false ∧
    ((bgHandlerBody o).status ≠ 200 →
      (bgHandlerBody o).status = 500 ∧
      (bgHandlerBody o).errorMsg = some bgGenericMsg ∧
      (bgHandlerBody o).details = (if o.dev then some o.errMsg else none)) := by
  unfold bgHandlerBody
  rw [hunlink]
  cases hr : o.readOk <;> cases hb : o.bgOk <;> simp [hr, hb]

/-- C3 (witness): the theorem at a concrete failing environment (the
background-removal library rejects, NODE_ENV is development): the temp file
is gone and the response is the generic 500. -/
theorem claim_c3_witness :
    (bgHandlerBody bgOracleFail).tempExists = false ∧
    (bgHandlerBody bgOracleFail).status = 500 :=
  ⟨(claim_c3 bgOracleFail rfl).1,
   ((claim_c3 bgOracleFail rfl).2 (by decide)).1⟩

/-- C5: no request ends with its browser still open.  Over every oracle
(every combination of step successes and failures, with `browser.close()`
itself embedded as succeeding), the simple `/api/render` handler, the
enhanced `captureHtml` pipeline and the enhanced `/render` handler all
terminate with the browser closed — on the success path and on every error
path alike. -/
theorem claim_c5 (so : SimpOracle) (co : CapOracle) (v : JSVal) (cs : List Char)
    (w h d : Option Int) :
    (apiRenderSimple so v w h).openAtEnd = false ∧
    (captureHtml co cs w h d).openAtEnd = false ∧
    (renderEnhanced co v w h d).openAtEnd = false := by
  refine ⟨?_, captureHtml_openAtEnd co cs w h d, ?_⟩
  · simp only [apiRenderSimple, apply_ite SimpResult.openAtEnd]
    simp
  · cases v with
    | str s =>
      by_cases hempty : (s == "") = true
      · simp [renderEnhanced, hempty]
      · cases hres : (captureHtml co s.data w h d).result with
        | ok buf => simp [renderEnhanced, hempty, hres, captureHtml_openAtEnd]
        | error e => simp [renderEnhanced, hempty, hres, captureHtml_openAtEnd]
    | num n => rfl
    | boolean b => rfl
    | null => rfl
    | undef => rfl
    | obj => rfl
    | arr => rfl

/-- C6: when width, height and device-scale-factor are omitted, the simple
`/api/render` variant applies 1200 × 630 to the viewport, the enhanced
pipeline resolves 1200 × 800 at scale 2 (both in `captureHtml`'s parameter
defaults and through the `/render` destructuring), and supplied values
override these defaults. -/
theorem claim_c6 (so : SimpOracle) (co : CapOracle) (v : JSVal) (s : List Char)
    (a b c : Int) (hv : v.truthy = true) (h1 : so.launchOk = true)
    (h2 : so.newPageOk = true) (h3 : so.viewportOk = true) :
    (apiRenderSimple so v none none).viewport = some (1200, 630) ∧
    (apiRenderSimple so v (some a) (some b)).viewport = some (a, b) ∧
    (captureHtml co s none none none).dims = some (1200, 800, 2) ∧
    (captureHtml co s (some a) (some b) (some c)).dims = some (a, b, c) ∧
    (∀ s2 : String, (s2 == "") = false →
      (renderEnhanced co (JSVal.str s2) none none none).dims = some (1200, 800, 2)) := by
  have hsimple : ∀ wo ho : Option Int,
      (apiRenderSimple so v wo ho).viewport = some (wo.getD 1200, ho.getD 630) := by
    intro wo ho
    simp only [apiRenderSimple, hv, h1, h2, h3, Bool.not_true, Bool.false_eq_true,
      if_false]
    split_ifs <;> rfl
  refine ⟨hsimple none none, hsimple (some a) (some b),
    captureHtml_dims co s none none none,
    captureHtml_dims co s (some a) (some b) (some c), ?_⟩
  intro s2 hs2
  cases hres : (captureHtml co s2.data none none none).result with
  | ok buf => simp [renderEnhanced, hs2, hres, captureHtml_dims]
  | error e => simp [renderEnhanced, hs2, hres, captureHtml_dims]

/-- C6 (witness): the theorem at concrete inputs — omitted dimensions give
1200 × 630 on the simple variant, and supplied dimensions 640 × 480 at scale
3 override the enhanced defaults. -/
theorem claim_c6_witness :
    (apiRenderSimple simpOracleOk (JSVal.str "<p>x</p>") none none).viewport =
      some (1200, 630) ∧
    (captureHtml capOracleOk plainHtml (some 640) (some 480) (some 3)).dims =
      some (640, 480, 3) :=
  ⟨(claim_c6 simpOracleOk capOracleOk (JSVal.str "<p>x</p>") plainHtml 640 480 3
      (by decide) rfl rfl rfl).1,
   (claim_c6 simpOracleOk capOracleOk (JSVal.str "<p>x</p>") plainHtml 640 480 3
      (by decide) rfl rfl rfl).2.2.2.1⟩

/-- C8: for every request with an allowed-type file within the size limit, in
an environment where reading, background removal and cleanup succeed and the
removal yields a nonempty buffer, the response is a 200 whose Content-Type is
image/png, which carries the X-Processing-Time header, and whose body is
exactly the nonempty buffer produced by the background-removal routine. -/
theorem claim_c8 (o : BgOracle) (f : BgFile)
    (hmime : fileFilterAccepts f = true) (hsize : f.size ≤ bgSizeLimit)
    (hr : o.readOk = true) (hb : o.bgOk = true) (hu : o.unlinkOk = true)
    (hbuf : o.bgBuf ≠ []) :
    (removeBackgroundRoute o (some f)).status = 200 ∧
    (removeBackgroundRoute o (some f)).contentType = some "image/png" ∧
    (removeBackgroundRoute o (some f)).xProcessingTime = some o.ptime ∧
    (removeBackgroundRoute o (some f)).body = o.bgBuf ∧
    (removeBackgroundRoute o (some f)).body ≠ [] := by
  have hroute : removeBackgroundRoute o (some f) = bgHandlerBody o := by
    simp [removeBackgroundRoute, hmime, Nat.not_lt.mpr hsize]
  have hbody : bgHandlerBody o =
      { status := 200, contentType := some "image/png",
        xProcessingTime := some o.ptime, body := o.bgBuf,
        reached := true, invokedBg := true, tempExists := false } := by
    unfold bgHandlerBody
    rw [hr, hb, hu]
    rfl
  rw [hroute, hbody]
  exact ⟨rfl, rfl, rfl, rfl, hbuf⟩

/-- C8 (witness): the theorem at a concrete valid PNG upload with a
successful environment. -/
theorem claim_c8_witness :
    (removeBackgroundRoute bgOracleOk (some bgFilePng)).status = 200 ∧
    (removeBackgroundRoute bgOracleOk (some bgFilePng)).contentType =
      some "image/png" ∧
    (removeBackgroundRoute bgOracleOk (some bgFilePng)).body ≠ [] :=
  ⟨(claim_c8 bgOracleOk bgFilePng (by decide) (by decide) rfl rfl rfl (by decide)).1,
   (claim_c8 bgOracleOk bgFilePng (by decide) (by decide) rfl rfl rfl (by decide)).2.1,
   (claim_c8 bgOracleOk bgFilePng (by decide) (by decide) rfl rfl rfl (by decide)).2.2.2.2⟩

/-- C9: for every enhanced `/render` request that responds with status 200,
given that the screenshot buffer is nonempty, the body is that nonempty PNG
buffer, the declared Content-Length header is exactly the decimal string of
the body's byte length, the X-Success header is `true`, and the Content-Type
is image/png. -/
theorem claim_c9 (o : CapOracle) (v : JSVal) (w h d : Option Int)
    (hbuf : o.shotBuf ≠ [])
    (hst : (renderEnhanced o v w h d).status = 200) :
    (renderEnhanced o v w h d).body ≠ [] ∧
    0 < (renderEnhanced o v w h d).body.length ∧
    (renderEnhanced o v w h d).contentLength =
      some (Nat.repr (renderEnhanced o v w h d).body.length) ∧
    (renderEnhanced o v w h d).xSuccess = some "true" ∧
    (renderEnhanced o v w h d).contentType = some "image/png" := by
  cases v with
  | str s =>
    by_cases hempty : (s == "") = true
    · simp [renderEnhanced, hempty] at hst
    · cases hres : (captureHtml o s.data w h d).result with
      | error e => simp [renderEnhanced, hempty, hres] at hst
      | ok buf =>
        have hbufeq : buf = o.shotBuf := captureHtml_result_ok hres
        subst hbufeq
        have heq : renderEnhanced o (JSVal.str s) w h d =
            { status := 200, contentType := some "image/png",
              cacheControl := some "no-cache, no-store, must-revalidate",
              contentLength := some (Nat.repr o.shotBuf.length),
              xSuccess := some "true", body := o.shotBuf,
              launched := (captureHtml o s.data w h d).launched,
              openAtEnd := (captureHtml o s.data w h d).openAtEnd,
              dims := (captureHtml o s.data w h d).dims } := by
          simp [renderEnhanced, hempty, hres]
        rw [heq]
        exact ⟨hbuf, List.length_pos.mpr hbuf, rfl, rfl, rfl⟩
  | num n => exact absurd hst (by simp [renderEnhanced])
  | boolean b => exact absurd hst (by simp [renderEnhanced])
  | null => exact absurd hst (by simp [renderEnhanced])
  | undef => exact absurd hst (by simp [renderEnhanced])
  | obj => exact absurd hst (by simp [renderEnhanced])
  | arr => exact absurd hst (by simp [renderEnhanced])

/-- C9 (witness): the theorem at a concrete successful render of
`<h1>Hi</h1>` with an all-success environment and a 4-byte screenshot
buffer. -/
theorem claim_c9_witness :
    (renderEnhanced capOracleOk (JSVal.str "<h1>Hi</h1>") none none none).body ≠ [] ∧
    (renderEnhanced capOracleOk (JSVal.str "<h1>Hi</h1>") none none none).xSuccess =
      some "true" :=
  ⟨(claim_c9 capOracleOk (JSVal.str "<h1>Hi</h1>") none none none
      (by decide) (by decide)).1,
   (claim_c9 capOracleOk (JSVal.str "<h1>Hi</h1>") none none none
      (by decide) (by decide)).2.2.2.1⟩
